import Mathlib

/-!
Verification development for the conversational-context core of the
Roo-Cline repository (src/core/sliding-window/index.ts,
src/core/context/ContextManager.ts, src/core/context/validation.ts,
src/core/context/types.ts).

The TypeScript sources are shallowly embedded as executable Lean
definitions:

* Messages keep the shape `{ role, content }` where `content` is either a
  plain string or a list of content blocks; only textual blocks carry text.
* JavaScript's stable `Array.prototype.sort(cmp)` is modelled by
  `List.insertionSort` over the preorder induced by the comparator
  (a stable sort's output is uniquely determined by the comparator, so any
  stable sorting algorithm is an equivalent model).
* Array indices stand in for JavaScript object identity: the code's
  `Map`-based restore step keys messages by object reference, which for a
  list of distinct objects is exactly the original position.
* The two regexes of the pattern extractor are reimplemented as
  deterministic scanners (the regexes are backtracking-free: every
  character class excludes its closing delimiter).  The scanners take a
  fuel argument bounded by the input length; every scan step consumes at
  least one character, so the fuel never runs out on the actual inputs.
* `Date.now()` is passed explicitly as a `now : Nat` argument.
* The VSCode `globalState.update` write-through calls are modelled as an
  explicit list of emitted writes, and `runOp` threads them through a
  caller-supplied store that may fail (`Except`).
-/

/-! ### Message data model (Anthropic.Messages.MessageParam) -/

/-- Role of a chat message. -/
inductive Role where
  | user
  | assistant
deriving DecidableEq, Repr

/-- Content block of a message; only textual blocks expose text.
The TypeScript code also tolerates bare strings inside the content array. -/
inductive ContentBlock where
  | str (s : String)
  | text (s : String)
  | other
deriving DecidableEq, Repr

/-- Message content: a plain string or an array of blocks. -/
inductive MessageContent where
  | str (s : String)
  | blocks (bs : List ContentBlock)
deriving DecidableEq, Repr

/-- A chat message (`Anthropic.Messages.MessageParam`). -/
structure MessageParam where
  role : Role
  content : MessageContent
deriving DecidableEq, Repr

/-- Text of one content block: the block itself when it is a string, its
`text` field when present, `""` otherwise
(sliding-window/index.ts, lines 23-27). -/
def blockText : ContentBlock → String
  | .str s => s
  | .text s => s
  | .other => ""

/-- Flattens a message's content to a single string: array contents are
mapped to their text and joined with newlines, a plain string is used
as-is (sliding-window/index.ts, lines 21-29). -/
def contentStr (m : MessageParam) : String :=
  match m.content with
  | .str s => s
  | .blocks bs => String.intercalate "\n" (bs.map blockText)

/-! ### Case-insensitive substring matching -/

/-- Whether `needle` is a prefix of `hay` (character lists). -/
def listStartsWith : List Char → List Char → Bool
  | _, [] => true
  | [], _ :: _ => false
  | a :: as, b :: bs => a == b && listStartsWith as bs

/-- Whether `needle` occurs as a contiguous substring of `hay`
(JavaScript `String.prototype.includes`). -/
def listContainsSub : List Char → List Char → Bool
  | [], needle => needle.isEmpty
  | a :: as, needle => listStartsWith (a :: as) needle || listContainsSub as needle

/-- Character list of a string with every character lower-cased
(`String.prototype.toLowerCase`; the markers searched for are ASCII, for
which JavaScript and `Char.toLower` agree). -/
def lowerChars (s : String) : List Char :=
  s.toList.map Char.toLower

/-- `content.toLowerCase().includes(pattern.toLowerCase())`
(sliding-window/index.ts, lines 17-18). -/
def containsPattern (content pat : String) : Bool :=
  listContainsSub (lowerChars content) (lowerChars pat)

/-! ### Importance scorer (analyzeMessageImportance) -/

/-- Result of scoring a single message. -/
structure MessageImportance where
  score : Nat
  reason : String
deriving DecidableEq, Repr

/-- Importance scoring of a single message
(sliding-window/index.ts, lines 12-69): each signal independently adds a
fixed weight and a reason label. -/
def analyzeMessageImportance (m : MessageParam) : MessageImportance :=
  let c := contentStr m
  let score :=
    (if containsPattern c "<task>" then 10 else 0) +
    (if containsPattern c "environment_details" then 8 else 0) +
    (if containsPattern c "<thinking>" then 5 else 0) +
    (if m.role == Role.assistant && containsPattern c "<tool_" then 6 else 0) +
    (if m.role == Role.user && containsPattern c "<feedback>" then 7 else 0) +
    (if containsPattern c "<error>" || containsPattern c "error:" then 4 else 0)
  let reasons :=
    (if containsPattern c "<task>" then ["Contains task definition"] else []) ++
    (if containsPattern c "environment_details" then ["Contains environment details"] else []) ++
    (if containsPattern c "<thinking>" then ["Contains thought process"] else []) ++
    (if m.role == Role.assistant && containsPattern c "<tool_" then ["Contains tool usage"] else []) ++
    (if m.role == Role.user && containsPattern c "<feedback>" then ["Contains user feedback"] else []) ++
    (if containsPattern c "<error>" || containsPattern c "error:" then ["Contains error context"] else [])
  { score := score, reason := String.intercalate ", " reasons }

/-- Signal: content contains a task-definition marker (weight 10). -/
def hasTaskSignal (m : MessageParam) : Bool :=
  containsPattern (contentStr m) "<task>"

/-- Signal: content contains an environment-details marker (weight 8). -/
def hasEnvSignal (m : MessageParam) : Bool :=
  containsPattern (contentStr m) "environment_details"

/-- Signal: content contains a thinking marker (weight 5). -/
def hasThinkingSignal (m : MessageParam) : Bool :=
  containsPattern (contentStr m) "<thinking>"

/-- Signal: assistant message containing a tool marker (weight 6). -/
def hasToolSignal (m : MessageParam) : Bool :=
  m.role == Role.assistant && containsPattern (contentStr m) "<tool_"

/-- Signal: user message containing a feedback marker (weight 7). -/
def hasFeedbackSignal (m : MessageParam) : Bool :=
  m.role == Role.user && containsPattern (contentStr m) "<feedback>"

/-- Signal: content contains an error marker or the literal "error:"
(weight 4). -/
def hasErrorSignal (m : MessageParam) : Bool :=
  containsPattern (contentStr m) "<error>" || containsPattern (contentStr m) "error:"

/-! ### Truncation engine (truncateHalfConversation) -/

/-- A scored message together with its original position in the input
sequence (the position models JavaScript object identity used by the
code's `Map`-based order-restoration step). -/
structure ScoredMsg where
  idx : Nat
  msg : MessageParam
  imp : MessageImportance
deriving DecidableEq, Repr

/-- Comparator `(a, b) => b.importance.score - a.importance.score`:
`a` precedes `b` when its score is at least `b`'s (descending order). -/
def scoreGe (a b : ScoredMsg) : Prop :=
  b.imp.score ≤ a.imp.score

instance : DecidableRel scoreGe := fun _ _ => Nat.decLe _ _

instance : IsTotal ScoredMsg scoreGe :=
  ⟨fun a b => Nat.le_total b.imp.score a.imp.score⟩

instance : IsTrans ScoredMsg scoreGe :=
  ⟨fun _ _ _ hab hbc => Nat.le_trans hbc hab⟩

/-- Comparator `(a, b) => indexA - indexB`: ascending original position. -/
def idxLe (a b : ScoredMsg) : Prop :=
  a.idx ≤ b.idx

instance : DecidableRel idxLe := fun _ _ => Nat.decLe _ _

instance : IsTotal ScoredMsg idxLe :=
  ⟨fun a b => Nat.le_total a.idx b.idx⟩

instance : IsTrans ScoredMsg idxLe :=
  ⟨fun _ _ _ hab hbc => Nat.le_trans hab hbc⟩

/-- `Math.ceil(n / 2)` for a natural `n`
(sliding-window/index.ts, line 93). -/
def targetLength (n : Nat) : Nat :=
  (n + 1) / 2

/-- `messages.slice(1).map(...)`: the messages after the anchor, each
paired with its original position (starting at 1) and importance
(sliding-window/index.ts, lines 82-87). -/
def scoredOf (rest : List MessageParam) : List ScoredMsg :=
  (List.enumFrom 1 rest).map (fun p => ⟨p.1, p.2, analyzeMessageImportance p.2⟩)

/-- `messageScores.sort((a, b) => b.importance.score - a.importance.score)`
(sliding-window/index.ts, line 90). -/
def sortedOf (rest : List MessageParam) : List ScoredMsg :=
  List.insertionSort scoreGe (scoredOf rest)

/-- `messageScores.slice(0, targetLength - 1)`
(sliding-window/index.ts, lines 94-96). -/
def keptOf (rest : List MessageParam) : List ScoredMsg :=
  (sortedOf rest).take (targetLength (rest.length + 1) - 1)

/-- `messagesToKeep.sort((a, b) => indexA - indexB)`: restore original
order (sliding-window/index.ts, lines 99-104). -/
def keptOrderedOf (rest : List MessageParam) : List ScoredMsg :=
  List.insertionSort idxLe (keptOf rest)

/-- Enhanced truncation preserving critical context
(sliding-window/index.ts, lines 74-134).  The optional context-manager
side channel (pattern recording) does not influence the returned list and
is modelled separately via `recordPattern`.  The TypeScript function
indexes `messages[0]` and is only ever called on non-empty input; the
empty case is mapped to the empty list. -/
def truncateHalfConversation : List MessageParam → List MessageParam
  | [] => []
  | m0 :: rest => m0 :: (keptOrderedOf rest).map ScoredMsg.msg

/-! ### Pattern extractor (the two regexes of extractCriticalContext)

The tag regex `<([^>]+)>[^<]*<\/\1>` and the technical-detail regex
`(?:\/[\w.-]+)+|` + backtick span + `` are deterministic: each character
class excludes the delimiter that terminates it, so the greedy match
never backtracks.  `String.prototype.match(re)` with the global flag
returns the list of successive leftmost non-overlapping matches, which a
position-by-position scan reproduces. -/

/-- Match of the tag regex `<([^>]+)>[^<]*<\/\1>` anchored at the start of
`cs`: returns the matched span and the remaining characters. -/
def tagMatchAt (cs : List Char) : Option (List Char × List Char) :=
  match cs with
  | '<' :: cs1 =>
    let nameRest := List.span (fun c => c != '>') cs1
    if nameRest.1.isEmpty then none
    else
      match nameRest.2 with
      | '>' :: cs3 =>
        let innerRest := List.span (fun c => c != '<') cs3
        match innerRest.2 with
        | '<' :: '/' :: cs5 =>
          if cs5.take nameRest.1.length == nameRest.1 then
            match cs5.drop nameRest.1.length with
            | '>' :: cs6 =>
              some ('<' :: nameRest.1 ++ '>' :: innerRest.1 ++
                    '<' :: '/' :: nameRest.1 ++ ['>'], cs6)
            | _ => none
          else none
        | _ => none
      | _ => none
  | _ => none

/-- JavaScript `\w`: ASCII letters, digits and underscore. -/
def isWordChar (c : Char) : Bool :=
  c.isAlpha || c.isDigit || c == '_'

/-- Character class `[\w.-]` of the path alternative. -/
def isSegChar (c : Char) : Bool :=
  isWordChar c || c == '.' || c == '-'

/-- Match of the path alternative `(?:\/[\w.-]+)+` anchored at the start:
one or more groups of `/` followed by a non-empty run of segment
characters, matched greedily.  `fuel` bounds the recursion; each group
consumes at least two characters, so `fuel = cs.length` suffices. -/
def pathMatchAux : Nat → List Char → Option (List Char × List Char)
  | 0, _ => none
  | fuel + 1, cs =>
    match cs with
    | '/' :: cs1 =>
      let segRest := List.span isSegChar cs1
      if segRest.1.isEmpty then none
      else
        match pathMatchAux fuel segRest.2 with
        | some (m2, rest) => some ('/' :: segRest.1 ++ m2, rest)
        | none => some ('/' :: segRest.1, segRest.2)
    | _ => none

/-- The backtick character (code point 96). -/
def backtickChar : Char :=
  Char.ofNat 96

/-- Match of the inline-code alternative (backtick, one or more
non-backtick characters, backtick) anchored at the start. -/
def backtickMatchAt (cs : List Char) : Option (List Char × List Char) :=
  match cs with
  | c :: cs1 =>
    if c == backtickChar then
      let innerRest := List.span (fun ch => ch != backtickChar) cs1
      if innerRest.1.isEmpty then none
      else
        match innerRest.2 with
        | c2 :: cs3 =>
          if c2 == backtickChar then some (c :: innerRest.1 ++ [c2], cs3) else none
        | [] => none
    else none
  | [] => none

/-- Match of the technical-detail regex anchored at the start: the path
alternative is tried first, then the inline-code alternative. -/
def techMatchAt (cs : List Char) : Option (List Char × List Char) :=
  match pathMatchAux cs.length cs with
  | some r => some r
  | none => backtickMatchAt cs

/-- Global scan: at each position try `matchAt`; on success emit the match
and continue after it, on failure advance one character.  `fuel` bounds
the number of steps; each step consumes at least one character, so
`fuel = cs.length` suffices. -/
def scanAux (matchAt : List Char → Option (List Char × List Char)) :
    Nat → List Char → List (List Char)
  | 0, _ => []
  | _ + 1, [] => []
  | fuel + 1, c :: rest =>
    match matchAt (c :: rest) with
    | some (m, rem) => m :: scanAux matchAt fuel rem
    | none => scanAux matchAt fuel rest

/-- All matches of a matcher in a string, left to right, non-overlapping
(JavaScript `content.match(re) || []` with the global flag). -/
def scanMatches (matchAt : List Char → Option (List Char × List Char))
    (s : String) : List String :=
  (scanAux matchAt s.toList.length s.toList).map List.asString

/-- Deduplication pass keeping the first occurrence of each string,
accumulating already-seen strings in `seen`. -/
def dedupAux : List String → List String → List String
  | _, [] => []
  | seen, x :: xs =>
    if seen.contains x then dedupAux seen xs else x :: dedupAux (x :: seen) xs

/-- `[...new Set(l)]`: removes exact duplicates, keeping first-seen order
(sliding-window/index.ts, lines 163-164). -/
def dedupFirstSeen (l : List String) : List String :=
  dedupAux [] l

/-- Result of `extractCriticalContext`. -/
structure CriticalContext where
  patterns : List String
  technicalDetails : List String
deriving DecidableEq, Repr

/-- Extracts critical context from a conversation
(sliding-window/index.ts, lines 139-166): per message, the flattened text
is scanned with the tag regex and the technical-detail regex; the
concatenated match lists are deduplicated via `Set`. -/
def extractCriticalContext (messages : List MessageParam) : CriticalContext :=
  let pats := (messages.map (fun m => scanMatches tagMatchAt (contentStr m))).flatten
  let techs := (messages.map (fun m => scanMatches techMatchAt (contentStr m))).flatten
  { patterns := dedupFirstSeen pats, technicalDetails := dedupFirstSeen techs }

/-! ### Context memory data model (context/types.ts) -/

/-- Mode-specific capacity settings (types.ts, ModeContextSettings). -/
structure ModeContextSettings where
  maxHistoryItems : Nat
  maxPatterns : Nat
  maxMistakes : Nat
deriving DecidableEq, Repr

/-- The manager's fully-resolved configuration
(`Required<ContextConfig>` without the VSCode handle, which is modelled
separately as the write-through store). -/
structure ConfigState where
  enabled : Bool
  currentMode : String
  modeSettings : List (String × ModeContextSettings)
  maxHistoryItems : Nat
  maxPatterns : Nat
  maxMistakes : Nat
deriving DecidableEq, Repr

/-- `DEFAULT_CONFIG` (types.ts). -/
def DEFAULT_CONFIG : ConfigState :=
  { enabled := true
    currentMode := "code"
    modeSettings :=
      [("code", ⟨50, 20, 10⟩), ("architect", ⟨30, 15, 5⟩), ("ask", ⟨20, 10, 3⟩)]
    maxHistoryItems := 50
    maxPatterns := 20
    maxMistakes := 10 }

/-- Task progress lists (types.ts, TaskContext.progress). -/
structure TaskProgress where
  completed : List String
  pending : List String
deriving DecidableEq, Repr

/-- The current task's context (types.ts, TaskContext). -/
structure TaskContext where
  id : String
  scope : String
  stage : String
  progress : TaskProgress
  startTime : Nat
  lastUpdateTime : Nat
deriving DecidableEq, Repr

/-- Project structure (types.ts, TechnicalContext.projectStructure). -/
structure ProjectStructure where
  root : String
  mainFiles : List String
  dependencies : List String
deriving DecidableEq, Repr

/-- Technical context (types.ts, TechnicalContext). -/
structure TechnicalContext where
  framework : Option String
  language : Option String
  patterns : List String
  projectStructure : ProjectStructure
  lastAnalyzedFiles : List String
deriving DecidableEq, Repr

/-- One entry of `recentCommands`. -/
structure CommandEntry where
  command : String
  timestamp : Nat
deriving DecidableEq, Repr

/-- One entry of `commonPatterns`. -/
structure PatternEntry where
  pattern : String
  occurrences : Nat
deriving DecidableEq, Repr

/-- One entry of `mistakes`. -/
structure MistakeEntry where
  type : String
  description : String
  timestamp : Nat
deriving DecidableEq, Repr

/-- User history lists (types.ts, UserContext.history). -/
structure UserHistory where
  recentCommands : List CommandEntry
  commonPatterns : List PatternEntry
  mistakes : List MistakeEntry
deriving DecidableEq, Repr

/-- User context (types.ts, UserContext); preference values are opaque
and modelled as strings. -/
structure UserContext where
  preferences : List (String × String)
  history : UserHistory
deriving DecidableEq, Repr

/-- The complete context memory state (types.ts, ContextMemory). -/
structure ContextMemory where
  task : TaskContext
  technical : TechnicalContext
  user : UserContext
deriving DecidableEq, Repr

/-- `createEmptyContext` (ContextManager.ts, lines 62-93); both
timestamps are `Date.now()`. -/
def createEmptyContext (now : Nat) : ContextMemory :=
  { task :=
      { id := "", scope := "", stage := "", progress := ⟨[], []⟩
        startTime := now, lastUpdateTime := now }
    technical :=
      { framework := none, language := none, patterns := []
        projectStructure := ⟨"", [], []⟩, lastAnalyzedFiles := [] }
    user :=
      { preferences := []
        history := { recentCommands := [], commonPatterns := [], mistakes := [] } } }

/-- The in-memory state of one ContextManager instance. -/
structure Manager where
  config : ConfigState
  context : ContextMemory
deriving DecidableEq, Repr

/-- A `Partial<ContextConfig>` without the VSCode handle. -/
structure ConfigPatch where
  enabled : Option Bool
  currentMode : Option String
  modeSettings : Option (List (String × ModeContextSettings))
  maxHistoryItems : Option Nat
  maxPatterns : Option Nat
  maxMistakes : Option Nat
deriving DecidableEq, Repr

/-- Object spread `{ ...config, ...patch }`: fields present in the patch
overwrite the configuration. -/
def applyPatch (cfg : ConfigState) (p : ConfigPatch) : ConfigState :=
  { enabled := p.enabled.getD cfg.enabled
    currentMode := p.currentMode.getD cfg.currentMode
    modeSettings := p.modeSettings.getD cfg.modeSettings
    maxHistoryItems := p.maxHistoryItems.getD cfg.maxHistoryItems
    maxPatterns := p.maxPatterns.getD cfg.maxPatterns
    maxMistakes := p.maxMistakes.getD cfg.maxMistakes }

/-- The empty configuration patch. -/
def emptyPatch : ConfigPatch :=
  ⟨none, none, none, none, none, none⟩

/-- The ContextManager constructor (ContextManager.ts, lines 21-27):
`{ ...DEFAULT_CONFIG, ...config }` plus an empty context. -/
def mkManager (p : ConfigPatch) (now : Nat) : Manager :=
  { config := applyPatch DEFAULT_CONFIG p, context := createEmptyContext now }

/-- A manager built from the default configuration. -/
def defaultManager (now : Nat) : Manager :=
  mkManager emptyPatch now

/-- `getModeSettings` (ContextManager.ts, lines 40-50): the current
mode's settings, or the flat fallback bounds. -/
def getModeSettings (cfg : ConfigState) : ModeContextSettings :=
  match cfg.modeSettings.lookup cfg.currentMode with
  | some ms => ms
  | none => ⟨cfg.maxHistoryItems, cfg.maxPatterns, cfg.maxMistakes⟩

/-! ### Write-through persistence model -/

/-- Values written to the external key-value store, one constructor per
persisted sub-object. -/
inductive StoreValue where
  | taskV (t : TaskContext)
  | techV (t : TechnicalContext)
  | prefsV (p : List (String × String))
  | cmdsV (c : List CommandEntry)
  | patsV (p : List PatternEntry)
  | misV (m : List MistakeEntry)
  | settingsV (enabled : Bool) (modeSettings : List (String × ModeContextSettings))
deriving DecidableEq, Repr

/-- One write-through call: a state key together with the written value. -/
abbrev StoreWrite := String × StoreValue

/-! ### Context memory store operations (ContextManager.ts)

Each operation returns the updated in-memory state together with the list
of write-through calls it issues, in order.  The in-memory update always
happens before the write is attempted, mirroring the method bodies where
the state mutation precedes the `await this.updateState(...)` call. -/

/-- A `Partial<TechnicalContext>`. -/
structure TechPatch where
  framework : Option String
  language : Option String
  patterns : Option (List String)
  projectStructure : Option ProjectStructure
  lastAnalyzedFiles : Option (List String)
deriving DecidableEq, Repr

/-- `initializeTaskContext` (ContextManager.ts, lines 112-125): replaces
`task` wholesale and writes it under "taskContext". -/
def initializeTaskContext (taskId scope : String) (now : Nat) (st : Manager) :
    Manager × List StoreWrite :=
  let task : TaskContext :=
    { id := taskId, scope := scope, stage := "initializing"
      progress := ⟨[], []⟩, startTime := now, lastUpdateTime := now }
  ({ st with context := { st.context with task := task } },
   [("taskContext", .taskV task)])

/-- `updateTaskProgress` (ContextManager.ts, lines 130-140): sets the
stage, replaces the provided progress lists, refreshes
`lastUpdateTime`, writes "taskContext". -/
def updateTaskProgress (stage : String) (completed pending : Option (List String))
    (now : Nat) (st : Manager) : Manager × List StoreWrite :=
  let t0 := st.context.task
  let t1 := { t0 with stage := stage }
  let t2 :=
    match completed with
    | some c => { t1 with progress := { t1.progress with completed := c } }
    | none => t1
  let t3 :=
    match pending with
    | some p => { t2 with progress := { t2.progress with pending := p } }
    | none => t2
  let t4 := { t3 with lastUpdateTime := now }
  ({ st with context := { st.context with task := t4 } },
   [("taskContext", .taskV t4)])

/-- `updateTechnicalContext` (ContextManager.ts, lines 145-151): shallow
merge `{ ...technical, ...updates }`, writes "technicalContext". -/
def updateTechnicalContext (p : TechPatch) (st : Manager) :
    Manager × List StoreWrite :=
  let te0 := st.context.technical
  let te : TechnicalContext :=
    { framework := match p.framework with | some v => some v | none => te0.framework
      language := match p.language with | some v => some v | none => te0.language
      patterns := p.patterns.getD te0.patterns
      projectStructure := p.projectStructure.getD te0.projectStructure
      lastAnalyzedFiles := p.lastAnalyzedFiles.getD te0.lastAnalyzedFiles }
  ({ st with context := { st.context with technical := te } },
   [("technicalContext", .techV te)])

/-- Object spread `{ ...old, ...new }` on a string-keyed record: keys of
`old` retain their position (overridden values win), genuinely new keys
of `new` are appended. -/
def mergeAssoc (old new : List (String × String)) : List (String × String) :=
  (old.map (fun kv =>
    match new.lookup kv.1 with
    | some v => (kv.1, v)
    | none => kv)) ++
  new.filter (fun kv => (old.lookup kv.1).isNone)

/-- `updateUserPreferences` (ContextManager.ts, lines 156-162): shallow
merge into the preferences map, writes "userPreferences". -/
def updateUserPreferences (prefs : List (String × String)) (st : Manager) :
    Manager × List StoreWrite :=
  let merged := mergeAssoc st.context.user.preferences prefs
  ({ st with context :=
      { st.context with user := { st.context.user with preferences := merged } } },
   [("userPreferences", .prefsV merged)])

/-- `addCommandToHistory` (ContextManager.ts, lines 167-182): no-op when
disabled; otherwise unshift the entry, pop the tail when the mode's
`maxHistoryItems` bound is exceeded, write "commandHistory". -/
def addCommandToHistory (command : String) (now : Nat) (st : Manager) :
    Manager × List StoreWrite :=
  if !st.config.enabled then (st, [])
  else
    let lst := ⟨command, now⟩ :: st.context.user.history.recentCommands
    let ms := getModeSettings st.config
    let lst2 := if ms.maxHistoryItems < lst.length then lst.dropLast else lst
    ({ st with context :=
        { st.context with user :=
          { st.context.user with history :=
            { st.context.user.history with recentCommands := lst2 } } } },
     [("commandHistory", .cmdsV lst2)])

/-- Increment `occurrences` of the first entry whose pattern equals `pat`
(the `find` + `existing.occurrences++` branch of `recordPattern`). -/
def incFirstPattern : List PatternEntry → String → List PatternEntry
  | [], _ => []
  | e :: es, pat =>
    if e.pattern == pat then { e with occurrences := e.occurrences + 1 } :: es
    else e :: incFirstPattern es pat

/-- Comparator `(a, b) => b.occurrences - a.occurrences`: descending
occurrence count. -/
def occGe (a b : PatternEntry) : Prop :=
  b.occurrences ≤ a.occurrences

instance : DecidableRel occGe := fun _ _ => Nat.decLe _ _

instance : IsTotal PatternEntry occGe :=
  ⟨fun a b => Nat.le_total b.occurrences a.occurrences⟩

instance : IsTrans PatternEntry occGe :=
  ⟨fun _ _ _ hab hbc => Nat.le_trans hbc hab⟩

/-- `recordPattern` (ContextManager.ts, lines 187-208): no-op when
disabled; otherwise increment the existing entry or insert a fresh one,
stable-sort by occurrences descending, pop the tail when the mode's
`maxPatterns` bound is exceeded, write "patternHistory". -/
def recordPattern (pat : String) (st : Manager) : Manager × List StoreWrite :=
  if !st.config.enabled then (st, [])
  else
    let ps := st.context.user.history.commonPatterns
    let ps1 :=
      if ps.any (fun e => e.pattern == pat) then incFirstPattern ps pat
      else ps ++ [⟨pat, 1⟩]
    let ps2 := List.insertionSort occGe ps1
    let ms := getModeSettings st.config
    let ps3 := if ms.maxPatterns < ps2.length then ps2.dropLast else ps2
    ({ st with context :=
        { st.context with user :=
          { st.context.user with history :=
            { st.context.user.history with commonPatterns := ps3 } } } },
     [("patternHistory", .patsV ps3)])

/-- `recordMistake` (ContextManager.ts, lines 213-229): no-op when
disabled; otherwise unshift the entry, pop the tail when the mode's
`maxMistakes` bound is exceeded, write "mistakeHistory". -/
def recordMistake (ty desc : String) (now : Nat) (st : Manager) :
    Manager × List StoreWrite :=
  if !st.config.enabled then (st, [])
  else
    let lst : List MistakeEntry := ⟨ty, desc, now⟩ :: st.context.user.history.mistakes
    let ms := getModeSettings st.config
    let lst2 := if ms.maxMistakes < lst.length then lst.dropLast else lst
    ({ st with context :=
        { st.context with user :=
          { st.context.user with history :=
            { st.context.user.history with mistakes := lst2 } } } },
     [("mistakeHistory", .misV lst2)])

/-- `updateSettings` (ContextManager.ts, lines 282-291): merge the patch
into the configuration and write the combined
`{ enabled, modeSettings }` record under "contextSettings". -/
def updateSettings (p : ConfigPatch) (st : Manager) : Manager × List StoreWrite :=
  let cfg := applyPatch st.config p
  ({ st with config := cfg },
   [("contextSettings", .settingsV cfg.enabled cfg.modeSettings)])

/-- `setMode` (ContextManager.ts, lines 32-35): set `currentMode`, then
call `updateSettings({ currentMode: mode })`. -/
def setMode (mode : String) (st : Manager) : Manager × List StoreWrite :=
  updateSettings ⟨none, some mode, none, none, none, none⟩
    { st with config := { st.config with currentMode := mode } }

/-- All mutating store operations, as one step relation. -/
inductive Op where
  | initTask (id scope : String)
  | updateProgress (stage : String) (completed pending : Option (List String))
  | updateTech (patch : TechPatch)
  | updatePrefs (prefs : List (String × String))
  | addCommand (cmd : String)
  | recPattern (pat : String)
  | recMistake (ty desc : String)
  | setModeOp (mode : String)
  | updSettings (patch : ConfigPatch)
deriving DecidableEq, Repr

/-- Dispatch of one mutating operation: updated in-memory state plus the
write-through calls it issues. -/
def stepOp : Op → Nat → Manager → Manager × List StoreWrite
  | .initTask id scope, now, st => initializeTaskContext id scope now st
  | .updateProgress stage c p, now, st => updateTaskProgress stage c p now st
  | .updateTech patch, _, st => updateTechnicalContext patch st
  | .updatePrefs prefs, _, st => updateUserPreferences prefs st
  | .addCommand cmd, now, st => addCommandToHistory cmd now st
  | .recPattern pat, _, st => recordPattern pat st
  | .recMistake ty desc, now, st => recordMistake ty desc now st
  | .setModeOp mode, _, st => setMode mode st
  | .updSettings patch, _, st => updateSettings patch st

/-- Whether an operation rewrites the live settings table
(`setMode` / `updateSettings`). -/
def Op.changesSettings : Op → Bool
  | .setModeOp _ => true
  | .updSettings _ => true
  | _ => false

/-- Attempt the write-through calls in order against a store that may
fail; the first failure is returned unmodified
(each method simply `await`s `globalState.update`). -/
def attemptWrites {ε : Type} (store : StoreWrite → Except ε Unit) :
    List StoreWrite → Except ε Unit
  | [] => .ok ()
  | w :: ws =>
    match store w with
    | .error e => .error e
    | .ok _ => attemptWrites store ws

/-- Run one mutating operation against a fallible store: the in-memory
update is applied first, then the writes are attempted; the operation's
result is the store's outcome. -/
def runOp {ε : Type} (op : Op) (now : Nat) (st : Manager)
    (store : StoreWrite → Except ε Unit) : Manager × Except ε Unit :=
  let r := stepOp op now st
  (r.1, attemptWrites store r.2)

/-! ### Context validator (context/validation.ts) -/

/-- Result of a context validation operation (types.ts,
ContextValidationResult). -/
structure ContextValidationResult where
  isValid : Bool
  missingFields : List String
  warnings : List String
deriving DecidableEq, Repr

/-- Rule `taskInitialization` (validation.ts, lines 15-21):
`Boolean(task.id && task.scope)` — both strings non-empty. -/
def ruleTaskInitialization (ctx : ContextMemory) : Bool :=
  !(ctx.task.id == "") && !(ctx.task.scope == "")

/-- Rule `taskProgress` (validation.ts, lines 22-28): at least one
completed or pending step. -/
def ruleTaskProgress (ctx : ContextMemory) : Bool :=
  decide (0 < ctx.task.progress.completed.length) ||
  decide (0 < ctx.task.progress.pending.length)

/-- Rule `technicalContext` (validation.ts, lines 29-35):
`Boolean(technical.projectStructure.root)` — non-empty root. -/
def ruleTechnicalContext (ctx : ContextMemory) : Bool :=
  !(ctx.technical.projectStructure.root == "")

/-- Rule `recentActivity` (validation.ts, lines 36-42): last update less
than 30 minutes old. -/
def ruleRecentActivity (now : Nat) (ctx : ContextMemory) : Bool :=
  decide (now - ctx.task.lastUpdateTime < 30 * 60 * 1000)

/-- `validateContextCompleteness` (validation.ts, lines 110-131): applies
the four named rules in table order; a failing error-severity rule
contributes `key: message` to `missingFields`, a failing warning-severity
rule contributes its message to `warnings`; the result is valid exactly
when no field is missing. -/
def validateContextCompleteness (now : Nat) (ctx : ContextMemory) :
    ContextValidationResult :=
  let missing :=
    (if ruleTaskInitialization ctx then []
     else ["taskInitialization: Task must have both ID and scope defined"]) ++
    (if ruleTechnicalContext ctx then []
     else ["technicalContext: Project root path must be defined"])
  let warns :=
    (if ruleTaskProgress ctx then []
     else ["Task should have either completed or pending steps"]) ++
    (if ruleRecentActivity now ctx then []
     else ["Context may be stale (no updates in last 30 minutes)"])
  { isValid := missing.isEmpty, missingFields := missing, warnings := warns }

/-! ### Reference-level model of `getContext` (ContextManager.ts, 261-263)

`getContext` returns `{ ...this.context }`.  Object spread copies the
top-level record but its `task` / `technical` / `user` property values
are object references, so the copy shares the nested objects with the
internal state.  To express this aliasing, the nested objects live in an
addressed heap and the memory record holds their addresses. -/

/-- The top-level `ContextMemory` record as JavaScript sees it: an object
identity of its own plus references to the three nested objects. -/
structure MemRef where
  self : Nat
  taskAddr : Nat
  techAddr : Nat
  userAddr : Nat
deriving DecidableEq, Repr

/-- Heap of nested context objects, addressed by reference. -/
structure JsHeap where
  taskAt : Nat → TaskContext
  techAt : Nat → TechnicalContext
  userAt : Nat → UserContext

/-- `getContext(): return { ...this.context }` — a fresh top-level object
whose nested references are those of the internal record. -/
def getContextSpread (internal : MemRef) (freshAddr : Nat) : MemRef :=
  { self := freshAddr
    taskAddr := internal.taskAddr
    techAddr := internal.techAddr
    userAddr := internal.userAddr }

/-- Caller-side mutation `returned.task.stage = stage` through a memory
record: updates the task object at the record's task address. -/
def setTaskStageAt (h : JsHeap) (r : MemRef) (stage : String) : JsHeap :=
  { h with taskAt := fun a =>
      if a = r.taskAddr then { h.taskAt r.taskAddr with stage := stage }
      else h.taskAt a }

/-- Observation of `memory.task.stage` through a memory record. -/
def readTaskStage (h : JsHeap) (r : MemRef) : String :=
  (h.taskAt r.taskAddr).stage

/-! ### Helper lemmas -/

/-- Each signal fires at most once and the tool / feedback signals are
mutually exclusive (the role is either user or assistant), so a single
message's score never exceeds 10 + 8 + 5 + 7 + 4 = 34. -/
theorem score_le_34 (m : MessageParam) : (analyzeMessageImportance m).score ≤ 34 := by
  rcases m with ⟨role, content⟩
  cases role
  · simp only [analyzeMessageImportance,
      show (Role.user == Role.assistant) = false from rfl, Bool.false_and]
    split_ifs <;> first | omega | simp_all
  · simp only [analyzeMessageImportance,
      show (Role.assistant == Role.user) = false from rfl, Bool.false_and]
    split_ifs <;> first | omega | simp_all

/-- Monotonicity of a single weighted signal. -/
theorem iteWeightMono (a b : Bool) (w : Nat) (h : a = true → b = true) :
    (if a then w else 0) ≤ (if b then w else 0) := by
  cases a
  · simp
  · rw [h rfl]

/-! ### C1: length of the truncated conversation -/

/-- Claim C1: for every non-empty message sequence,
`truncateHalfConversation` returns a sequence whose length is
`min(len(messages), ceil(len(messages) / 2))`; in particular a
single-message input is returned unchanged. -/
theorem claim1_truncate_length :
    (∀ messages : List MessageParam, messages ≠ [] →
      (truncateHalfConversation messages).length =
        min messages.length ((messages.length + 1) / 2)) ∧
    (∀ m : MessageParam, truncateHalfConversation [m] = [m]) := by
  constructor
  · intro messages h
    match messages with
    | [] => exact absurd rfl h
    | m0 :: rest =>
      show (m0 :: (keptOrderedOf rest).map ScoredMsg.msg).length = _
      simp only [List.length_cons, List.length_map, keptOrderedOf, keptOf,
        sortedOf, scoredOf, List.length_insertionSort, List.length_take,
        List.enumFrom_length, targetLength]
      omega
  · intro m
    rfl

/-- Claim C1 witness: the length law applied to a concrete three-message
conversation. -/
theorem claim1_truncate_length_witness :
    (truncateHalfConversation
        [⟨Role.user, MessageContent.str "a"⟩, ⟨Role.assistant, MessageContent.str "b"⟩,
         ⟨Role.user, MessageContent.str "c"⟩]).length =
      min 3 ((3 + 1) / 2) :=
  claim1_truncate_length.1
    [⟨Role.user, MessageContent.str "a"⟩, ⟨Role.assistant, MessageContent.str "b"⟩,
     ⟨Role.user, MessageContent.str "c"⟩] (by decide)

/-! ### C3: additive scoring -/

/-- Claim C3, amended: the importance score is the sum of the weights of
the independently matched signals (10 task, 8 environment, 5 thinking,
6 tool when assistant, 7 feedback when user, 4 error), matching is
case-insensitive, and scoring is monotone under signal addition — but
the score of a single message is bounded by 34, not unbounded: each
signal fires at most once and the role-gated tool / feedback signals are
mutually exclusive. -/
theorem claim3_scoring_additive_bounded :
    (∀ m : MessageParam, (analyzeMessageImportance m).score =
      (if hasTaskSignal m then 10 else 0) + (if hasEnvSignal m then 8 else 0) +
      (if hasThinkingSignal m then 5 else 0) + (if hasToolSignal m then 6 else 0) +
      (if hasFeedbackSignal m then 7 else 0) + (if hasErrorSignal m then 4 else 0)) ∧
    (∀ m m' : MessageParam,
      (hasTaskSignal m' = true → hasTaskSignal m = true) →
      (hasEnvSignal m' = true → hasEnvSignal m = true) →
      (hasThinkingSignal m' = true → hasThinkingSignal m = true) →
      (hasToolSignal m' = true → hasToolSignal m = true) →
      (hasFeedbackSignal m' = true → hasFeedbackSignal m = true) →
      (hasErrorSignal m' = true → hasErrorSignal m = true) →
      (analyzeMessageImportance m').score ≤ (analyzeMessageImportance m).score) ∧
    (∀ m : MessageParam, (analyzeMessageImportance m).score ≤ 34) := by
  refine ⟨fun m => rfl, ?_, score_le_34⟩
  intro m m' h1 h2 h3 h4 h5 h6
  show
    (if hasTaskSignal m' then 10 else 0) + (if hasEnvSignal m' then 8 else 0) +
      (if hasThinkingSignal m' then 5 else 0) + (if hasToolSignal m' then 6 else 0) +
      (if hasFeedbackSignal m' then 7 else 0) + (if hasErrorSignal m' then 4 else 0) ≤
    (if hasTaskSignal m then 10 else 0) + (if hasEnvSignal m then 8 else 0) +
      (if hasThinkingSignal m then 5 else 0) + (if hasToolSignal m then 6 else 0) +
      (if hasFeedbackSignal m then 7 else 0) + (if hasErrorSignal m then 4 else 0)
  have g1 := iteWeightMono _ _ 10 h1
  have g2 := iteWeightMono _ _ 8 h2
  have g3 := iteWeightMono _ _ 5 h3
  have g4 := iteWeightMono _ _ 6 h4
  have g5 := iteWeightMono _ _ 7 h5
  have g6 := iteWeightMono _ _ 4 h6
  omega

/-- Claim C3 counterexample to "the score has no upper bound": the score
of every single message is bounded by 34. -/
theorem claim3_counterexample :
    ∃ B : Nat, ∀ m : MessageParam, (analyzeMessageImportance m).score ≤ B :=
  ⟨34, score_le_34⟩

/-- Claim C3 witness: monotonicity instantiated at a plain message and a
message carrying both a task marker and an error marker. -/
theorem claim3_scoring_witness :
    (analyzeMessageImportance ⟨Role.user, MessageContent.str "hello"⟩).score ≤
      (analyzeMessageImportance ⟨Role.user, MessageContent.str "<task> error: boom"⟩).score :=
  claim3_scoring_additive_bounded.2.1
    ⟨Role.user, MessageContent.str "<task> error: boom"⟩
    ⟨Role.user, MessageContent.str "hello"⟩
    (by decide) (by decide) (by decide) (by decide) (by decide) (by decide)

/-! ### C10: initializeTaskContext frame -/

/-- Claim C10: `initializeTaskContext` modifies only the task sub-object
(stage "initializing", empty progress lists, fresh timestamps); the
technical and user sub-objects and the configuration are unchanged, and
only the "taskContext" key is written — re-initialization does not clear
accumulated memory. -/
theorem claim10_initTask_frame :
    ∀ (id scope : String) (now : Nat) (st : Manager),
      (stepOp (.initTask id scope) now st).1.context.technical = st.context.technical ∧
      (stepOp (.initTask id scope) now st).1.context.user = st.context.user ∧
      (stepOp (.initTask id scope) now st).1.config = st.config ∧
      (stepOp (.initTask id scope) now st).1.context.task =
        ⟨id, scope, "initializing", ⟨[], []⟩, now, now⟩ ∧
      (stepOp (.initTask id scope) now st).2 =
        [("taskContext", StoreValue.taskV ⟨id, scope, "initializing", ⟨[], []⟩, now, now⟩)] :=
  fun _ _ _ _ => ⟨rfl, rfl, rfl, rfl, rfl⟩

/-! ### C6: write-through with no rollback -/

/-- When the write-through calls fail, the returned error is one produced
by the store itself, unmodified. -/
theorem attemptWrites_error {ε : Type} (store : StoreWrite → Except ε Unit) :
    ∀ (ws : List StoreWrite) (e : ε), attemptWrites store ws = Except.error e →
      ∃ w ∈ ws, store w = Except.error e := by
  intro ws
  induction ws with
  | nil => intro e h; simp [attemptWrites] at h
  | cons w ws ih =>
    intro e h
    simp only [attemptWrites] at h
    cases hw : store w with
    | error e2 =>
      rw [hw] at h
      simp only [] at h
      exact ⟨w, List.mem_cons_self _ _, by rw [hw]; exact h⟩
    | ok u =>
      rw [hw] at h
      obtain ⟨w2, hmem, he⟩ := ih e h
      exact ⟨w2, List.mem_cons_of_mem _ hmem, he⟩

/-- Claim C6: for every mutating store operation the in-memory update is
applied independently of the persistence outcome (the final state does
not depend on the store and equals the pure step, so a subsequent
`getContext` observes the new value with no retry and no rollback), and
a failing write-through call propagates the store's error unmodified. -/
theorem claim6_write_through :
    ∀ {ε : Type} (op : Op) (now : Nat) (st : Manager)
      (store store2 : StoreWrite → Except ε Unit),
      (runOp op now st store).1 = (stepOp op now st).1 ∧
      (runOp op now st store).1 = (runOp op now st store2).1 ∧
      (runOp op now st store).1.context = (stepOp op now st).1.context ∧
      (∀ e : ε, (runOp op now st store).2 = Except.error e →
        ∃ w ∈ (stepOp op now st).2, store w = Except.error e) :=
  fun _ _ _ store _ => ⟨rfl, rfl, rfl, fun e h => attemptWrites_error store _ e h⟩

/-- A store whose every write fails. -/
def boomStore : StoreWrite → Except String Unit :=
  fun _ => Except.error "boom"

/-- Claim C6 witness: a concrete `updateTaskProgress` against a failing
store keeps the in-memory update and surfaces the store's error. -/
theorem claim6_write_through_witness :
    (runOp (Op.updateProgress "in_progress" none none) 5 (defaultManager 0) boomStore).1 =
      (stepOp (Op.updateProgress "in_progress" none none) 5 (defaultManager 0)).1 ∧
    ∃ w ∈ (stepOp (Op.updateProgress "in_progress" none none) 5 (defaultManager 0)).2,
      boomStore w = Except.error "boom" :=
  ⟨(claim6_write_through (Op.updateProgress "in_progress" none none) 5
      (defaultManager 0) boomStore boomStore).1,
   (claim6_write_through (Op.updateProgress "in_progress" none none) 5
      (defaultManager 0) boomStore boomStore).2.2.2 "boom" rfl⟩

/-! ### C9: disabled memory system -/

/-- Claim C9: with the memory system disabled, `addCommandToHistory`,
`recordPattern` and `recordMistake` leave the state untouched, issue no
write, and report success to the caller. -/
theorem claim9_disabled_noop :
    ∀ (st : Manager) (now : Nat) (cmd pat ty desc : String) {ε : Type}
      (store : StoreWrite → Except ε Unit),
      st.config.enabled = false →
      stepOp (.addCommand cmd) now st = (st, []) ∧
      stepOp (.recPattern pat) now st = (st, []) ∧
      stepOp (.recMistake ty desc) now st = (st, []) ∧
      (runOp (.addCommand cmd) now st store).2 = Except.ok () ∧
      (runOp (.recPattern pat) now st store).2 = Except.ok () ∧
      (runOp (.recMistake ty desc) now st store).2 = Except.ok () := by
  intro st now cmd pat ty desc ε store h
  have h1 : stepOp (.addCommand cmd) now st = (st, []) := by
    simp [stepOp, addCommandToHistory, h]
  have h2 : stepOp (.recPattern pat) now st = (st, []) := by
    simp [stepOp, recordPattern, h]
  have h3 : stepOp (.recMistake ty desc) now st = (st, []) := by
    simp [stepOp, recordMistake, h]
  refine ⟨h1, h2, h3, ?_, ?_, ?_⟩ <;>
    simp [runOp, h1, h2, h3, attemptWrites]

/-- A manager constructed with `enabled: false`. -/
def disabledManager : Manager :=
  mkManager ⟨some false, none, none, none, none, none⟩ 0

/-- A store accepting every write. -/
def okStore : StoreWrite → Except String Unit :=
  fun _ => Except.ok ()

/-- Claim C9 witness: the no-op law applied to a concrete disabled
manager. -/
theorem claim9_disabled_noop_witness :
    stepOp (.addCommand "git status") 3 disabledManager = (disabledManager, []) ∧
    stepOp (.recPattern "<p>x</p>") 3 disabledManager = (disabledManager, []) ∧
    stepOp (.recMistake "typo" "oops") 3 disabledManager = (disabledManager, []) ∧
    (runOp (.addCommand "git status") 3 disabledManager okStore).2 = Except.ok () ∧
    (runOp (.recPattern "<p>x</p>") 3 disabledManager okStore).2 = Except.ok () ∧
    (runOp (.recMistake "typo" "oops") 3 disabledManager okStore).2 = Except.ok () :=
  claim9_disabled_noop disabledManager 3 "git status" "<p>x</p>" "typo" "oops" okStore rfl

/-! ### C5: getContext returns a shallow copy -/

/-- A concrete heap for the aliasing demonstration. -/
def c5Heap : JsHeap :=
  { taskAt := fun _ => ⟨"t1", "scope1", "original", ⟨[], []⟩, 0, 0⟩
    techAt := fun _ => (createEmptyContext 0).technical
    userAt := fun _ => (createEmptyContext 0).user }

/-- Claim C5 counterexample: `getContext` does not return a structural
copy.  Mutating `returned.task.stage` through the value returned by the
spread copy changes the stage subsequently observed on the manager's
internal record from "original" to "mutated". -/
theorem claim5_counterexample :
    readTaskStage
        (setTaskStageAt c5Heap (getContextSpread ⟨0, 1, 2, 3⟩ 7) "mutated")
        ⟨0, 1, 2, 3⟩ = "mutated" ∧
    readTaskStage c5Heap ⟨0, 1, 2, 3⟩ = "original" :=
  ⟨rfl, rfl⟩

/-- Claim C5, amended: `getContext` returns a shallow copy — the returned
top-level record is a fresh object, but its task / technical / user
members are the very references held by the internal state, so mutating
a nested object through the returned value is visible in the manager's
subsequently observed internal state. -/
theorem claim5_shallow_copy :
    ∀ (internal : MemRef) (freshAddr : Nat) (h : JsHeap) (stage2 : String),
      (getContextSpread internal freshAddr).self = freshAddr ∧
      (getContextSpread internal freshAddr).taskAddr = internal.taskAddr ∧
      (getContextSpread internal freshAddr).techAddr = internal.techAddr ∧
      (getContextSpread internal freshAddr).userAddr = internal.userAddr ∧
      readTaskStage (setTaskStageAt h (getContextSpread internal freshAddr) stage2)
          internal = stage2 := by
  intro internal freshAddr h stage2
  refine ⟨rfl, rfl, rfl, rfl, ?_⟩
  simp [readTaskStage, setTaskStageAt, getContextSpread]

/-! ### C8: context completeness validation -/

/-- Claim C8: `validateContextCompleteness` on a freshly constructed
(never-initialized) memory is invalid with at least one missing field;
after `initializeTaskContext` (with non-empty id and scope) and setting a
non-empty technical project root, every error-severity rule passes. -/
theorem claim8_validate_completeness :
    (∀ now0 now1 : Nat,
      (validateContextCompleteness now1 (createEmptyContext now0)).isValid = false ∧
      (validateContextCompleteness now1 (createEmptyContext now0)).missingFields ≠ []) ∧
    (∀ (st : Manager) (id scope root : String) (mf deps : List String)
        (now1 now2 now3 : Nat),
      id ≠ "" → scope ≠ "" → root ≠ "" →
      (validateContextCompleteness now3
        ((stepOp (.updateTech ⟨none, none, none, some ⟨root, mf, deps⟩, none⟩) now2
          (stepOp (.initTask id scope) now1 st).1).1.context)).isValid = true) := by
  constructor
  · intro now0 now1
    exact ⟨rfl, by simp [validateContextCompleteness, createEmptyContext,
      ruleTaskInitialization, ruleTechnicalContext]⟩
  · intro st id scope root mf deps now1 now2 now3 h1 h2 h3
    have hb1 : (id == "") = false := beq_eq_false_iff_ne.mpr h1
    have hb2 : (scope == "") = false := beq_eq_false_iff_ne.mpr h2
    have hb3 : (root == "") = false := beq_eq_false_iff_ne.mpr h3
    simp [validateContextCompleteness, ruleTaskInitialization, ruleTechnicalContext,
      stepOp, initializeTaskContext, updateTechnicalContext, hb1, hb2, hb3]

/-- Claim C8 witness: the completeness law at concrete inputs. -/
theorem claim8_validate_completeness_witness :
    (validateContextCompleteness 1 (createEmptyContext 0)).isValid = false ∧
    (validateContextCompleteness 99
      ((stepOp (.updateTech ⟨none, none, none, some ⟨"/proj", [], []⟩, none⟩) 2
        (stepOp (.initTask "task-1" "implement X") 1 (defaultManager 0)).1).1.context)).isValid
      = true :=
  ⟨(claim8_validate_completeness.1 0 1).1,
   claim8_validate_completeness.2 (defaultManager 0) "task-1" "implement X" "/proj"
     [] [] 1 2 99 (by decide) (by decide) (by decide)⟩

/-! ### C7: critical-context extraction -/

/-- The deduplication pass yields a subsequence of its input: first-seen
order is preserved. -/
theorem dedupAux_sublist : ∀ (xs seen : List String), (dedupAux seen xs).Sublist xs := by
  intro xs
  induction xs with
  | nil => intro seen; simp [dedupAux]
  | cons x xs ih =>
    intro seen
    simp only [dedupAux]
    split
    · exact (ih seen).cons x
    · exact (ih (x :: seen)).cons₂ x

/-- The deduplication pass yields no duplicates, and nothing already seen. -/
theorem dedupAux_nodup : ∀ (xs seen : List String),
    (dedupAux seen xs).Nodup ∧ ∀ y ∈ dedupAux seen xs, seen.contains y = false := by
  intro xs
  induction xs with
  | nil => intro seen; exact ⟨List.nodup_nil, by simp [dedupAux]⟩
  | cons x xs ih =>
    intro seen
    simp only [dedupAux]
    split
    case isTrue h => exact ih seen
    case isFalse h =>
      obtain ⟨hnd, hnotin⟩ := ih (x :: seen)
      have hx : x ∉ dedupAux (x :: seen) xs := by
        intro hx
        have hc := hnotin x hx
        simp only [List.contains_cons, beq_self_eq_true, Bool.true_or] at hc
        cases hc
      refine ⟨List.Nodup.cons hx hnd, ?_⟩
      intro y hy
      rcases List.mem_cons.mp hy with rfl | hy2
      · simpa using h
      · have hc := hnotin y hy2
        simp only [List.contains_cons, Bool.or_eq_false_iff] at hc
        exact hc.2

/-- Claim C7: on `"<task>\nImplement feature X\n</task>"` the extractor
yields exactly the full tag span (which contains both `<task>` and
`Implement feature X`); on a backtick-delimited path it yields that exact
backtick-quoted span in `technicalDetails`; a doubled tag span appears
exactly once; and in general both output sets are duplicate-free,
first-seen-order subsequences of the raw match lists. -/
theorem claim7_extraction :
    (extractCriticalContext
        [⟨Role.user, MessageContent.str "<task>\nImplement feature X\n</task>"⟩]).patterns =
      ["<task>\nImplement feature X\n</task>"] ∧
    (extractCriticalContext
        [⟨Role.assistant, MessageContent.str "`src/components/Feature.tsx`"⟩]).technicalDetails =
      ["`src/components/Feature.tsx`"] ∧
    (extractCriticalContext
        [⟨Role.assistant,
          MessageContent.str "<pattern>test</pattern>\n<pattern>test</pattern>"⟩]).patterns.count
        "<pattern>test</pattern>" = 1 ∧
    (∀ messages : List MessageParam,
      (extractCriticalContext messages).patterns.Nodup ∧
      (extractCriticalContext messages).technicalDetails.Nodup ∧
      (extractCriticalContext messages).patterns.Sublist
        ((messages.map (fun m => scanMatches tagMatchAt (contentStr m))).flatten) ∧
      (extractCriticalContext messages).technicalDetails.Sublist
        ((messages.map (fun m => scanMatches techMatchAt (contentStr m))).flatten)) := by
  refine ⟨by decide, by decide, by decide, ?_⟩
  intro messages
  exact ⟨(dedupAux_nodup _ []).1, (dedupAux_nodup _ []).1,
    dedupAux_sublist _ [], dedupAux_sublist _ []⟩

/-! ### C4: pattern recording and the maxPatterns bound -/

/-- Incrementing an existing entry's count keeps the list length. -/
theorem length_incFirstPattern : ∀ (l : List PatternEntry) (p : String),
    (incFirstPattern l p).length = l.length := by
  intro l p
  induction l with
  | nil => rfl
  | cons e es ih =>
    simp only [incFirstPattern]
    split <;> simp [ih]

/-- The commonPatterns list stays within the bound of the currently
active mode settings. -/
def patternsInvariant (st : Manager) : Prop :=
  st.context.user.history.commonPatterns.length ≤ (getModeSettings st.config).maxPatterns

/-- `recordPattern` preserves the active bound on commonPatterns. -/
theorem recordPattern_preserves (p : String) (st : Manager)
    (hinv : patternsInvariant st) : patternsInvariant (recordPattern p st).1 := by
  unfold patternsInvariant at hinv ⊢
  unfold recordPattern
  split
  · exact hinv
  · simp only []
    split
    case isTrue hany =>
      split
      case isTrue hlt =>
        rw [List.length_dropLast, List.length_insertionSort, length_incFirstPattern]
        omega
      case isFalse hge => omega
    case isFalse hany =>
      split
      case isTrue hlt =>
        rw [List.length_dropLast, List.length_insertionSort, List.length_append]
        simp only [List.length_cons, List.length_nil]
        omega
      case isFalse hge => omega

/-- The eleven-then-shrink scenario: record eleven distinct patterns in
the default "code" mode (bound 20), then switch to "ask" (bound 10). -/
def c4Final : Manager :=
  (["<a1>", "<a2>", "<a3>", "<a4>", "<a5>", "<a6>", "<a7>", "<a8>", "<a9>", "<a10>",
    "<a11>"].foldl (fun s pat => (stepOp (.recPattern pat) 0 s).1) (defaultManager 0)
   |> stepOp (.setModeOp "ask") 0).1

/-- Claim C4 counterexample: after a sequence of ContextManager
operations (eleven `recordPattern` calls in mode "code", then
`setMode("ask")`), the commonPatterns list has 11 entries while the
active `maxPatterns` bound is 10 — the claimed invariant fails once a
mode switch shrinks the bound. -/
theorem claim4_counterexample :
    (getModeSettings c4Final.config).maxPatterns <
      c4Final.context.user.history.commonPatterns.length := by
  decide

/-- Claim C4, amended: `recordPattern` applied twice with the same exact
string (from a fresh default manager) yields one entry with
`occurrences == 2`; and every operation that does not rewrite the live
settings table (i.e. everything except `setMode` / `updateSettings`)
preserves the bound `commonPatterns.length ≤ active maxPatterns`.  A
`setMode` / `updateSettings` call that shrinks the active bound can leave
the list exceeding it, as the counterexample shows. -/
theorem claim4_recordPattern_bound :
    (∀ p : String,
      (recordPattern p (recordPattern p (defaultManager 0)).1).1.context.user.history.commonPatterns
        = [⟨p, 2⟩]) ∧
    (∀ (op : Op) (now : Nat) (st : Manager), op.changesSettings = false →
      patternsInvariant st → patternsInvariant (stepOp op now st).1) := by
  constructor
  · intro p
    have step1 :
        (recordPattern p (defaultManager 0)).1 =
          { defaultManager 0 with context :=
            { (defaultManager 0).context with user :=
              { (defaultManager 0).context.user with history :=
                { (defaultManager 0).context.user.history with
                  commonPatterns := [⟨p, 1⟩] } } } } := by
      simp [recordPattern, defaultManager, mkManager, applyPatch, emptyPatch,
        DEFAULT_CONFIG, createEmptyContext, getModeSettings, List.lookup]
    rw [step1]
    simp [recordPattern, defaultManager, mkManager, applyPatch, emptyPatch,
      DEFAULT_CONFIG, createEmptyContext, getModeSettings, List.lookup,
      incFirstPattern, List.insertionSort, List.orderedInsert]
  · intro op now st hcs hinv
    cases op with
    | initTask id scope => exact hinv
    | updateProgress s c p => exact hinv
    | updateTech p => exact hinv
    | updatePrefs p => exact hinv
    | addCommand c =>
      have hc : (stepOp (.addCommand c) now st).1.config = st.config ∧
          (stepOp (.addCommand c) now st).1.context.user.history.commonPatterns =
            st.context.user.history.commonPatterns := by
        simp only [stepOp]
        unfold addCommandToHistory
        split
        · exact ⟨rfl, rfl⟩
        · exact ⟨rfl, rfl⟩
      unfold patternsInvariant at hinv ⊢
      rw [hc.1, hc.2]
      exact hinv
    | recMistake t d =>
      have hc : (stepOp (.recMistake t d) now st).1.config = st.config ∧
          (stepOp (.recMistake t d) now st).1.context.user.history.commonPatterns =
            st.context.user.history.commonPatterns := by
        simp only [stepOp]
        unfold recordMistake
        split
        · exact ⟨rfl, rfl⟩
        · exact ⟨rfl, rfl⟩
      unfold patternsInvariant at hinv ⊢
      rw [hc.1, hc.2]
      exact hinv
    | recPattern p => exact recordPattern_preserves p st hinv
    | setModeOp m => simp [Op.changesSettings] at hcs
    | updSettings p => simp [Op.changesSettings] at hcs

/-- Claim C4 witness: the double-record law at a concrete pattern, and
bound preservation for a concrete non-settings operation. -/
theorem claim4_recordPattern_bound_witness :
    (recordPattern "<p>x</p>"
        (recordPattern "<p>x</p>" (defaultManager 0)).1).1.context.user.history.commonPatterns
      = [⟨"<p>x</p>", 2⟩] ∧
    patternsInvariant (stepOp (.addCommand "ls") 0 (defaultManager 0)).1 :=
  ⟨claim4_recordPattern_bound.1 "<p>x</p>",
   claim4_recordPattern_bound.2 (.addCommand "ls") 0 (defaultManager 0) rfl
     (by unfold patternsInvariant; decide)⟩

/-! ### C2: the truncation engine never reorders -/

/-- Membership in `enumFrom` determines the element at the recorded
position. -/
theorem mem_enumFrom_get? {α : Type} :
    ∀ (l : List α) (n : Nat) (q : Nat × α),
      q ∈ List.enumFrom n l → n ≤ q.1 ∧ l.get? (q.1 - n) = some q.2 := by
  intro l
  induction l with
  | nil => intro n q h; simp [List.enumFrom] at h
  | cons a l ih =>
    intro n q h
    rw [List.enumFrom] at h
    rcases List.mem_cons.mp h with rfl | h2
    · exact ⟨Nat.le_refl n, by simp⟩
    · obtain ⟨hle, hget⟩ := ih (n + 1) q h2
      refine ⟨Nat.le_trans (Nat.le_succ n) hle, ?_⟩
      have hk : q.1 - n = (q.1 - (n + 1)) + 1 := by omega
      rw [hk, List.get?_cons_succ]
      exact hget

/-- Shifting the indices does not change the projected values. -/
theorem map_snd_shift {α : Type} (ps : List (Nat × α)) :
    (ps.map (fun q : Nat × α => (q.1 - 1, q.2))).map Prod.snd = ps.map Prod.snd := by
  induction ps with
  | nil => rfl
  | cons q ps ih => simp [ih]

/-- A list of (position, value) pairs of `l` with strictly increasing
positions projects to a sublist of `l`. -/
theorem pairs_map_snd_sublist {α : Type} :
    ∀ (l : List α) (ps : List (Nat × α)),
      (∀ p ∈ ps, l.get? p.1 = some p.2) →
      ps.Pairwise (fun a b => a.1 < b.1) →
      (ps.map Prod.snd).Sublist l := by
  intro l
  induction l with
  | nil =>
    intro ps hmem _
    cases ps with
    | nil => simp
    | cons p ps2 => exact absurd (hmem p (List.mem_cons_self _ _)) (by simp)
  | cons a l ih =>
    intro ps hmem hpw
    cases ps with
    | nil => simp
    | cons p ps2 =>
      by_cases hp0 : p.1 = 0
      · have ha : a = p.2 := by
          have hg := hmem p (List.mem_cons_self _ _)
          rw [hp0] at hg
          simpa using hg
        have hpos : ∀ q ∈ ps2, 0 < q.1 := by
          intro q hq
          have := List.rel_of_pairwise_cons hpw hq
          omega
        have hmem2 : ∀ r ∈ ps2.map (fun q : Nat × α => (q.1 - 1, q.2)),
            l.get? r.1 = some r.2 := by
          intro r hr
          obtain ⟨q, hq, rfl⟩ := List.mem_map.mp hr
          have hg := hmem q (List.mem_cons_of_mem _ hq)
          have h1 := hpos q hq
          have hk : q.1 = (q.1 - 1) + 1 := by omega
          rw [hk, List.get?_cons_succ] at hg
          exact hg
        have hpw2 : (ps2.map (fun q : Nat × α => (q.1 - 1, q.2))).Pairwise
            (fun a b => a.1 < b.1) := by
          rw [List.pairwise_map]
          refine ((List.pairwise_cons.mp hpw).2).imp_of_mem ?_
          intro x y hx hy hxy
          have := hpos x hx
          omega
        have hsub := ih _ hmem2 hpw2
        rw [map_snd_shift] at hsub
        simp only [List.map_cons]
        rw [← ha]
        exact hsub.cons₂ a
      · have hpos : ∀ q ∈ p :: ps2, 0 < q.1 := by
          intro q hq
          rcases List.mem_cons.mp hq with rfl | hq2
          · omega
          · have := List.rel_of_pairwise_cons hpw hq2
            omega
        have hmem2 : ∀ r ∈ (p :: ps2).map (fun q : Nat × α => (q.1 - 1, q.2)),
            l.get? r.1 = some r.2 := by
          intro r hr
          obtain ⟨q, hq, rfl⟩ := List.mem_map.mp hr
          have hg := hmem q hq
          have h1 := hpos q hq
          have hk : q.1 = (q.1 - 1) + 1 := by omega
          rw [hk, List.get?_cons_succ] at hg
          exact hg
        have hpw2 : ((p :: ps2).map (fun q : Nat × α => (q.1 - 1, q.2))).Pairwise
            (fun a b => a.1 < b.1) := by
          rw [List.pairwise_map]
          refine hpw.imp_of_mem ?_
          intro x y hx hy hxy
          have := hpos x hx
          omega
        have hsub := ih _ hmem2 hpw2
        rw [map_snd_shift] at hsub
        exact hsub.cons a

/-- Claim C2: for every non-empty message sequence, the first input
message is the first element of the result, and the result is a sublist
of the input — retained messages keep their original relative order; the
engine removes messages but never reorders them. -/
theorem claim2_truncate_order :
    ∀ messages : List MessageParam, messages ≠ [] →
      (truncateHalfConversation messages).head? = messages.head? ∧
      (truncateHalfConversation messages).Sublist messages := by
  intro messages h
  match messages with
  | [] => exact absurd rfl h
  | m0 :: rest =>
    refine ⟨rfl, ?_⟩
    show (m0 :: (keptOrderedOf rest).map ScoredMsg.msg).Sublist (m0 :: rest)
    apply List.Sublist.cons₂
    have hmemKO : ∀ s ∈ keptOrderedOf rest, s ∈ scoredOf rest := by
      intro s hs
      have h1 : s ∈ keptOf rest :=
        (List.perm_insertionSort idxLe (keptOf rest)).mem_iff.mp hs
      have h2 : s ∈ sortedOf rest :=
        List.Sublist.mem h1 (List.take_sublist _ _)
      exact (List.perm_insertionSort scoreGe (scoredOf rest)).mem_iff.mp h2
    have hidx : ∀ s ∈ keptOrderedOf rest,
        1 ≤ s.idx ∧ rest.get? (s.idx - 1) = some s.msg := by
      intro s hs
      obtain ⟨q, hq, rfl⟩ := List.mem_map.mp (hmemKO s hs)
      obtain ⟨hle, hget⟩ := mem_enumFrom_get? rest 1 q hq
      exact ⟨hle, hget⟩
    have hscored : ((scoredOf rest).map ScoredMsg.idx) = List.range' 1 rest.length := by
      unfold scoredOf
      rw [List.map_map]
      have hcomp : (ScoredMsg.idx ∘ fun p : Nat × MessageParam =>
          (⟨p.1, p.2, analyzeMessageImportance p.2⟩ : ScoredMsg)) = Prod.fst :=
        funext fun p => rfl
      rw [hcomp, List.enumFrom_map_fst]
    have hnod1 : ((sortedOf rest).map ScoredMsg.idx).Nodup := by
      refine List.Perm.nodup
        (((List.perm_insertionSort scoreGe (scoredOf rest)).map ScoredMsg.idx).symm) ?_
      rw [hscored]
      exact List.nodup_range' 1 rest.length
    have hnod2 : ((keptOf rest).map ScoredMsg.idx).Nodup :=
      List.Sublist.nodup ((List.take_sublist _ _).map ScoredMsg.idx) hnod1
    have hnodKO : ((keptOrderedOf rest).map ScoredMsg.idx).Nodup :=
      List.Perm.nodup
        (((List.perm_insertionSort idxLe (keptOf rest)).map ScoredMsg.idx).symm) hnod2
    have hsorted : (keptOrderedOf rest).Pairwise idxLe :=
      List.sorted_insertionSort idxLe (keptOf rest)
    have hne : (keptOrderedOf rest).Pairwise (fun a b => a.idx ≠ b.idx) :=
      List.pairwise_map.mp hnodKO
    have hstrict : (keptOrderedOf rest).Pairwise (fun a b => a.idx < b.idx) :=
      (hsorted.and hne).imp (fun h => Nat.lt_of_le_of_ne h.1 h.2)
    have hfinal :
        (((keptOrderedOf rest).map (fun s => (s.idx - 1, s.msg))).map Prod.snd).Sublist rest := by
      apply pairs_map_snd_sublist
      · intro r hr
        obtain ⟨s, hs, rfl⟩ := List.mem_map.mp hr
        exact (hidx s hs).2
      · rw [List.pairwise_map]
        refine hstrict.imp_of_mem ?_
        intro x y hx hy hxy
        have h1 := (hidx x hx).1
        omega
    rw [List.map_map] at hfinal
    have hcomp2 : (Prod.snd ∘ fun s : ScoredMsg => (s.idx - 1, s.msg)) = ScoredMsg.msg :=
      funext fun s => rfl
    rwa [hcomp2] at hfinal

/-- Claim C2 witness: the order law applied to a concrete four-message
conversation. -/
theorem claim2_truncate_order_witness :
    (truncateHalfConversation
        [⟨Role.user, MessageContent.str "<task>x</task>"⟩,
         ⟨Role.assistant, MessageContent.str "plain"⟩,
         ⟨Role.user, MessageContent.str "error: boom"⟩,
         ⟨Role.assistant, MessageContent.str "<thinking>hm</thinking>"⟩]).head? =
      (some ⟨Role.user, MessageContent.str "<task>x</task>"⟩ :
        Option MessageParam) ∧
    (truncateHalfConversation
        [⟨Role.user, MessageContent.str "<task>x</task>"⟩,
         ⟨Role.assistant, MessageContent.str "plain"⟩,
         ⟨Role.user, MessageContent.str "error: boom"⟩,
         ⟨Role.assistant, MessageContent.str "<thinking>hm</thinking>"⟩]).Sublist
      [⟨Role.user, MessageContent.str "<task>x</task>"⟩,
       ⟨Role.assistant, MessageContent.str "plain"⟩,
       ⟨Role.user, MessageContent.str "error: boom"⟩,
       ⟨Role.assistant, MessageContent.str "<thinking>hm</thinking>"⟩] :=
  claim2_truncate_order
    [⟨Role.user, MessageContent.str "<task>x</task>"⟩,
     ⟨Role.assistant, MessageContent.str "plain"⟩,
     ⟨Role.user, MessageContent.str "error: boom"⟩,
     ⟨Role.assistant, MessageContent.str "<thinking>hm</thinking>"⟩] (by decide)
